import Mathlib

/-!
Verification of the keyring NIF module (src/native/keyring_nif/src/lib.rs).

The Rust source is a thin NIF wrapper: it exposes Ed25519 keypair
generation / signing / verification (via the ed25519_dalek crate),
BLAKE3 hashing (via the blake3 crate), and a collection of store and
QUIC transport stubs that return `{error, not_implemented}` tuples.

Byte strings are modelled as `List Nat` (each element a byte value).
Erlang atoms become the inductive `Atom`.  The external crates are not
part of the repository source, so their behaviour is modelled from the
specification: BLAKE3 is implemented in full from its published
description, and the Ed25519 scheme is modelled as the same Schnorr-style
equation system over a concrete cyclic group of the true Ed25519 group
order, with BLAKE3 standing in for the internal SHA-512 calls.
-/

namespace Keyring

/-- Bytes are lists of natural numbers; the NIF layer receives Erlang
binaries, which are byte sequences. -/
abbrev Bytes := List Nat

/-- Little-endian encoding of a natural number into exactly `len` bytes
(truncating above `256 ^ len`). -/
def natToLEBytes : Nat → Nat → Bytes
  | 0, _ => []
  | len + 1, n => n % 256 :: natToLEBytes len (n / 256)

/-- Little-endian decoding of a byte list into a natural number. -/
def leBytesToNat : Bytes → Nat
  | [] => 0
  | b :: rest => b + 256 * leBytesToNat rest

theorem length_natToLEBytes (len n : Nat) : (natToLEBytes len n).length = len := by
  induction len generalizing n with
  | zero => rfl
  | succ k ih => simp [natToLEBytes, ih]

theorem leBytesToNat_natToLEBytes (len n : Nat) (h : n < 256 ^ len) :
    leBytesToNat (natToLEBytes len n) = n := by
  induction len generalizing n with
  | zero => simp [Nat.pow_zero] at h; simp [natToLEBytes, leBytesToNat, h]
  | succ k ih =>
      have hdiv : n / 256 < 256 ^ k := by
        rw [Nat.div_lt_iff_lt_mul (by norm_num : 0 < 256)]
        calc n < 256 ^ (k + 1) := h
        _ = 256 ^ k * 256 := by ring
      simp [natToLEBytes, leBytesToNat, ih (n / 256) hdiv, Nat.mod_add_div]

/-! ### BLAKE3

Modelled from the spec: the `blake3` crate is an external dependency, not
part of the repository source.  The hash is implemented here in full from
the published BLAKE3 description (compression function, chunking, and the
binary Merkle tree), specialised to the plain-hash mode and 32-byte
output used by the NIF. -/

/-- Chaining value: eight 32-bit words. -/
structure CV where
  h0 : Nat
  h1 : Nat
  h2 : Nat
  h3 : Nat
  h4 : Nat
  h5 : Nat
  h6 : Nat
  h7 : Nat

/-- Message block: sixteen 32-bit words. -/
structure MBlock where
  m0 : Nat
  m1 : Nat
  m2 : Nat
  m3 : Nat
  m4 : Nat
  m5 : Nat
  m6 : Nat
  m7 : Nat
  m8 : Nat
  m9 : Nat
  m10 : Nat
  m11 : Nat
  m12 : Nat
  m13 : Nat
  m14 : Nat
  m15 : Nat

/-- Internal compression state: sixteen 32-bit words. -/
structure VState where
  v0 : Nat
  v1 : Nat
  v2 : Nat
  v3 : Nat
  v4 : Nat
  v5 : Nat
  v6 : Nat
  v7 : Nat
  v8 : Nat
  v9 : Nat
  v10 : Nat
  v11 : Nat
  v12 : Nat
  v13 : Nat
  v14 : Nat
  v15 : Nat

/-- BLAKE3 initialisation vector (the SHA-256 initial-state constants). -/
def IV : CV :=
  ⟨0x6A09E667, 0xBB67AE85, 0x3C6EF372, 0xA54FF53A,
   0x510E527F, 0x9B05688C, 0x1F83D9AB, 0x5BE0CD19⟩

/-- Right rotation of a 32-bit word by `n` bits. -/
def rotr32 (n x : Nat) : Nat := x / 2 ^ n + x % 2 ^ n * 2 ^ (32 - n)

/-- Quarter-round mixing function of BLAKE3 (rotation amounts 16, 12, 8, 7). -/
def gMix (a b c d mx my : Nat) : Nat × Nat × Nat × Nat :=
  let a := (a + b + mx) % 2 ^ 32
  let d := rotr32 16 (d ^^^ a)
  let c := (c + d) % 2 ^ 32
  let b := rotr32 12 (b ^^^ c)
  let a := (a + b + my) % 2 ^ 32
  let d := rotr32 8 (d ^^^ a)
  let c := (c + d) % 2 ^ 32
  let b := rotr32 7 (b ^^^ c)
  (a, b, c, d)

/-- One round of the compression function: four column mixes then four
diagonal mixes. -/
def roundFn (v : VState) (m : MBlock) : VState :=
  let (a0, b0, c0, d0) := gMix v.v0 v.v4 v.v8 v.v12 m.m0 m.m1
  let (a1, b1, c1, d1) := gMix v.v1 v.v5 v.v9 v.v13 m.m2 m.m3
  let (a2, b2, c2, d2) := gMix v.v2 v.v6 v.v10 v.v14 m.m4 m.m5
  let (a3, b3, c3, d3) := gMix v.v3 v.v7 v.v11 v.v15 m.m6 m.m7
  let (e0, f0, w0, x0) := gMix a0 b1 c2 d3 m.m8 m.m9
  let (e1, f1, w1, x1) := gMix a1 b2 c3 d0 m.m10 m.m11
  let (e2, f2, w2, x2) := gMix a2 b3 c0 d1 m.m12 m.m13
  let (e3, f3, w3, x3) := gMix a3 b0 c1 d2 m.m14 m.m15
  ⟨e0, e1, e2, e3, f3, f0, f1, f2, w2, w3, w0, w1, x1, x2, x3, x0⟩

/-- BLAKE3 message-word permutation applied between rounds. -/
def permute (m : MBlock) : MBlock :=
  ⟨m.m2, m.m6, m.m3, m.m10, m.m7, m.m0, m.m4, m.m13,
   m.m1, m.m11, m.m12, m.m5, m.m9, m.m14, m.m15, m.m8⟩

/-- Compression function: seven rounds over the initial state built from
the chaining value, the IV constants, the 64-bit counter `t`, the block
length `b` and the flag word `f`. -/
def compress (h : CV) (m : MBlock) (t b f : Nat) : VState :=
  let v : VState :=
    ⟨h.h0, h.h1, h.h2, h.h3, h.h4, h.h5, h.h6, h.h7,
     IV.h0, IV.h1, IV.h2, IV.h3, t % 2 ^ 32, t / 2 ^ 32 % 2 ^ 32, b, f⟩
  let m1 := permute m
  let m2 := permute m1
  let m3 := permute m2
  let m4 := permute m3
  let m5 := permute m4
  let m6 := permute m5
  let v := roundFn v m
  let v := roundFn v m1
  let v := roundFn v m2
  let v := roundFn v m3
  let v := roundFn v m4
  let v := roundFn v m5
  roundFn v m6

/-- First eight output words of a compression: the next chaining value
(and, for the root, the 32-byte hash output). -/
def cvXor (v : VState) : CV :=
  ⟨v.v0 ^^^ v.v8, v.v1 ^^^ v.v9, v.v2 ^^^ v.v10, v.v3 ^^^ v.v11,
   v.v4 ^^^ v.v12, v.v5 ^^^ v.v13, v.v6 ^^^ v.v14, v.v7 ^^^ v.v15⟩

/-- Serialise a chaining value as 32 little-endian bytes. -/
def cvToBytes (c : CV) : Bytes :=
  natToLEBytes 4 c.h0 ++ natToLEBytes 4 c.h1 ++ natToLEBytes 4 c.h2 ++
  natToLEBytes 4 c.h3 ++ natToLEBytes 4 c.h4 ++ natToLEBytes 4 c.h5 ++
  natToLEBytes 4 c.h6 ++ natToLEBytes 4 c.h7

/-- Word `i` of a block: bytes `4*i .. 4*i+3` read little-endian; bytes
past the end of the block read as zero, which is exactly BLAKE3's
zero-padding of the final block. -/
def wordAt (bl : Bytes) (i : Nat) : Nat := leBytesToNat ((bl.drop (4 * i)).take 4)

/-- Parse a block of at most 64 bytes into sixteen message words. -/
def blockWords (bl : Bytes) : MBlock :=
  ⟨wordAt bl 0, wordAt bl 1, wordAt bl 2, wordAt bl 3,
   wordAt bl 4, wordAt bl 5, wordAt bl 6, wordAt bl 7,
   wordAt bl 8, wordAt bl 9, wordAt bl 10, wordAt bl 11,
   wordAt bl 12, wordAt bl 13, wordAt bl 14, wordAt bl 15⟩

/-- Split a byte string into 64-byte blocks; a string of at most 64 bytes
(also the empty one) is a single block, as in BLAKE3 chunk processing. -/
def toBlocks (l : Bytes) : List Bytes :=
  if l.length ≤ 64 then [l] else l.take 64 :: toBlocks (l.drop 64)
termination_by l.length
decreasing_by simp_all [List.length_drop]; omega

/-- Split a byte string into 1024-byte chunks; input of at most 1024
bytes (also empty) is a single chunk. -/
def toChunks (l : Bytes) : List Bytes :=
  if l.length ≤ 1024 then [l] else l.take 1024 :: toChunks (l.drop 1024)
termination_by l.length
decreasing_by simp_all [List.length_drop]; omega

/-- Pending output of a tree node: everything needed for its final
compression, with the ROOT flag still undecided. -/
structure NodeOutput where
  inCV : CV
  block : MBlock
  blockLen : Nat
  counter : Nat
  flags : Nat

/-- Chaining value of a non-root node. -/
def NodeOutput.chainingValue (o : NodeOutput) : CV :=
  cvXor (compress o.inCV o.block o.counter o.blockLen o.flags)

/-- Final 32-byte output of the root node: same compression with the
ROOT flag (8) added. -/
def NodeOutput.rootBytes (o : NodeOutput) : Bytes :=
  cvToBytes (cvXor (compress o.inCV o.block o.counter o.blockLen (o.flags + 8)))

/-- Compress the blocks of one chunk: CHUNK_START (1) on the first
block, CHUNK_END (2) on the last; the last block is left pending as the
chunk's `NodeOutput`. -/
def chunkState (cv : CV) (t : Nat) (blocks : List Bytes) (isFirst : Bool) :
    NodeOutput :=
  match blocks with
  | [] =>
      { inCV := cv, block := blockWords [], blockLen := 0, counter := t,
        flags := (if isFirst then 1 else 0) + 2 }
  | [bl] =>
      { inCV := cv, block := blockWords bl, blockLen := bl.length, counter := t,
        flags := (if isFirst then 1 else 0) + 2 }
  | bl :: rest =>
      chunkState
        (cvXor (compress cv (blockWords bl) t bl.length (if isFirst then 1 else 0)))
        t rest false

/-- Pending output of the chunk with index `t`. -/
def chunkOutput (t : Nat) (chunk : Bytes) : NodeOutput :=
  chunkState IV t (toBlocks chunk) true

/-- Pending output of a parent node over two child chaining values:
block = the two CVs, counter 0, block length 64, PARENT flag (4). -/
def parentOutput (l r : CV) : NodeOutput :=
  { inCV := IV,
    block := ⟨l.h0, l.h1, l.h2, l.h3, l.h4, l.h5, l.h6, l.h7,
              r.h0, r.h1, r.h2, r.h3, r.h4, r.h5, r.h6, r.h7⟩,
    blockLen := 64, counter := 0, flags := 4 }

/-- Largest power of two strictly below `n` (for `n ≥ 2`); BLAKE3's rule
for how many chunks the left subtree takes. -/
def largestPow2Lt (n : Nat) : Nat :=
  if n ≤ 2 then 1 else 2 * largestPow2Lt ((n + 1) / 2)
termination_by n
decreasing_by simp_all; omega

theorem largestPow2Lt_pos (n : Nat) : 1 ≤ largestPow2Lt n := by
  induction n using Nat.strong_induction_on with
  | _ n ih =>
      rw [largestPow2Lt]
      split
      · exact le_refl 1
      · have := ih ((n + 1) / 2) (by omega)
        omega

theorem largestPow2Lt_lt (n : Nat) (h : 2 ≤ n) : largestPow2Lt n < n := by
  induction n using Nat.strong_induction_on with
  | _ n ih =>
      rw [largestPow2Lt]
      split
      · omega
      · rename_i hn
        have h2 : 2 ≤ (n + 1) / 2 := by omega
        have := ih ((n + 1) / 2) (by omega) h2
        omega

/-- Pending output of the subtree covering `chunks`, the first of which
has chunk index `t`: a single chunk stands alone, longer lists split
with the largest power of two of chunks on the left. -/
def nodeOutput (t : Nat) (chunks : List Bytes) : NodeOutput :=
  match chunks with
  | [] => chunkOutput t []
  | [c] => chunkOutput t c
  | c0 :: c1 :: rest =>
      let cs := c0 :: c1 :: rest
      let nl := largestPow2Lt cs.length
      parentOutput (nodeOutput t (cs.take nl)).chainingValue
        (nodeOutput (t + nl) (cs.drop nl)).chainingValue
termination_by chunks.length
decreasing_by
  all_goals
    simp only [List.length_take, List.length_drop, List.length_cons]
    have h1 := largestPow2Lt_pos (rest.length + 1 + 1)
    have h2 := largestPow2Lt_lt (rest.length + 1 + 1) (by omega)
    omega

/-- BLAKE3 hash, 32-byte output, of an arbitrary byte string. -/
def blake3OfBytes (data : Bytes) : Bytes :=
  (nodeOutput 0 (toChunks data)).rootBytes

/-- NIF `blake3_hash` (src/native/keyring_nif/src/lib.rs:62): hashes the
input binary with BLAKE3 and returns the 32-byte digest. -/
def blake3_hash (data : Bytes) : Bytes := blake3OfBytes data

/-! ### Atoms

The Erlang atoms declared in the `atoms` module of the source. -/

/-- Atoms returned by the NIFs (src/native/keyring_nif/src/lib.rs:11-21). -/
inductive Atom where
  | ok
  | error
  | nif_not_loaded
  | not_implemented
  | secret
  | public
  | node_id
deriving DecidableEq, Repr

/-! ### Ed25519 model

Modelled from the spec: the `ed25519_dalek` crate is an external
dependency, not part of the repository source.  Per spec §4, the scheme
is Schnorr-style: secrets expand to a scalar `s` with public point
`A = [s]B`, signatures are `(R, S) = ([r]B, r + k*s mod L)` with
challenge `k` hashed from `(R, A, message)`, and verification checks
`[S]B - [k]A = R` on the encodings.  The curve group is modelled by the
concrete cyclic group `ZL = Nat mod L` of the true Ed25519 group order
`L`, with base point `1`; BLAKE3 stands in for the internal SHA-512. -/

/-- Order of the Ed25519 base-point group (the prime `2^252 + ...`). -/
def L : Nat := 2 ^ 252 + 27742317777372353535851937790883648493

/-- Modelled from the spec: hashing to a scalar (SHA-512 reduced mod `L`
in ed25519_dalek); here BLAKE3 interpreted little-endian mod `L`. -/
def hashToScalar (m : Bytes) : Nat := leBytesToNat (blake3OfBytes m) % L

/-- Modelled from the spec: derivation of the secret scalar from the
32-byte seed (first half of SHA-512 of the seed, clamped, in
ed25519_dalek). -/
def scalarFromSeed (seed : Bytes) : Nat := hashToScalar seed

/-- Modelled from the spec: derivation of the deterministic-nonce key
from the seed (second half of SHA-512 of the seed in ed25519_dalek). -/
def prefixOfSeed (seed : Bytes) : Bytes := blake3OfBytes (blake3OfBytes seed)

/-- Modelled from the spec: scalar multiple of the base point,
`[s]B` in the cyclic model group. -/
def scalarMulBase (s : Nat) : Nat := s % L

/-- Modelled from the spec: scalar multiple of an arbitrary point. -/
def scalarMulPoint (k p : Nat) : Nat := k * p % L

/-- Modelled from the spec: point subtraction `p - q` in the model
group. -/
def pointSub (p q : Nat) : Nat := (p + (L - q % L)) % L

/-- Modelled from the spec: canonical 32-byte encoding of a point. -/
def pointEncode (p : Nat) : Bytes := natToLEBytes 32 (p % L)

/-- Modelled from the spec: decoding of a 32-byte public-key or point
encoding, which fails on byte strings that are not a valid encoding
(spec §4.3: "if decoding fails ... return false"). -/
def pointDecode (b : Bytes) : Option Nat :=
  if leBytesToNat b < L then some (leBytesToNat b) else none

/-! ### Identity / crypto NIFs -/

/-- Result map of `generate_keypair`: a map with the atom keys `secret`,
`public`, `node_id` (src/native/keyring_nif/src/lib.rs:46-57). -/
structure Keypair where
  secret : Bytes
  public : Bytes
  node_id : Bytes
deriving DecidableEq, Repr

/-- NIF `generate_keypair` (src/native/keyring_nif/src/lib.rs:27-58),
parameterised over the 32 bytes drawn from `OsRng`: the secret is the
sampled seed, the public key is derived from it by the scheme's key
derivation, and `node_id` is the BLAKE3 hash of the public key bytes. -/
def generate_keypair (entropy : Bytes) : Keypair :=
  let verifying := pointEncode (scalarMulBase (scalarFromSeed entropy))
  { secret := entropy
    public := verifying
    node_id := blake3OfBytes verifying }

/-- NIF `ed25519_sign` (src/native/keyring_nif/src/lib.rs:71-86): rejects
a secret key whose length is not exactly 32 with `Err(error)`; otherwise
signs deterministically (the internals of `SigningKey::sign` are
modelled from the spec as described above) and returns the 64-byte
signature `R || S`. -/
def ed25519_sign (data secret_key : Bytes) : Except Atom Bytes :=
  if secret_key.length ≠ 32 then .error .error
  else
    let s := scalarFromSeed secret_key
    let bigA := scalarMulBase s
    let r := hashToScalar (prefixOfSeed secret_key ++ data)
    let rB := pointEncode (scalarMulBase r)
    let k := hashToScalar (rB ++ pointEncode bigA ++ data)
    let bigS := (r + k * s) % L
    .ok (rB ++ natToLEBytes 32 bigS)

/-- NIF `ed25519_verify` (src/native/keyring_nif/src/lib.rs:90-108):
returns `false` when the public key is not 32 bytes or the signature is
not 64 bytes, `false` when the public key does not decode to a valid
point, `false` on a non-canonical scalar half, and otherwise the result
of the scheme's verification equation (modelled from the spec: the
internals of `VerifyingKey::verify` check `[S]B - [k]A` against `R`). -/
def ed25519_verify (data signature public_key : Bytes) : Bool :=
  if public_key.length ≠ 32 ∨ signature.length ≠ 64 then false
  else
    match pointDecode public_key with
    | none => false
    | some bigA =>
      let rB := signature.take 32
      let sN := leBytesToNat (signature.drop 32)
      if L ≤ sN then false
      else
        let k := hashToScalar (rB ++ public_key ++ data)
        decide (pointEncode (pointSub (scalarMulBase sN) (scalarMulPoint k bigA)) = rB)

/-! ### Store stubs (src/native/keyring_nif/src/lib.rs:112-150)

Erlang terms of unconstrained shape are modelled as values of an
arbitrary type. -/

/-- NIF stub `store_open`. -/
def store_open (_path : String) : Atom × Atom := (.error, .not_implemented)

/-- NIF stub `store_put_blob`. -/
def store_put_blob {α : Type} (_store : α) (_data : Bytes) : Atom × Atom :=
  (.error, .not_implemented)

/-- NIF stub `store_get_blob`. -/
def store_get_blob {α : Type} (_store : α) (_hash : Bytes) : Atom × Atom :=
  (.error, .not_implemented)

/-- NIF stub `store_has_blob`. -/
def store_has_blob {α : Type} (_store : α) (_hash : Bytes) : Atom × Atom :=
  (.error, .not_implemented)

/-- NIF stub `store_put_document`. -/
def store_put_document {α β : Type} (_store : α) (_doc : β) : Atom × Atom :=
  (.error, .not_implemented)

/-- NIF stub `store_get_document`. -/
def store_get_document {α : Type} (_store : α) (_id : Bytes) : Atom × Atom :=
  (.error, .not_implemented)

/-- NIF stub `store_list_documents`. -/
def store_list_documents {α : Type} (_store : α) (_keyring_id : Bytes) : Atom × Atom :=
  (.error, .not_implemented)

/-- NIF stub `store_delete_document`. -/
def store_delete_document {α : Type} (_store : α) (_id : Bytes) : Atom × Atom :=
  (.error, .not_implemented)

/-! ### QUIC stubs (src/native/keyring_nif/src/lib.rs:154-182) -/

/-- NIF stub `quic_connect`. -/
def quic_connect (_host : String) (_port : Nat) : Atom × Atom :=
  (.error, .not_implemented)

/-- NIF stub `quic_send`. -/
def quic_send {α : Type} (_conn : α) (_data : Bytes) : Atom × Atom :=
  (.error, .not_implemented)

/-- NIF stub `quic_recv`. -/
def quic_recv {α : Type} (_conn : α) (_timeout_ms : Nat) : Atom × Atom :=
  (.error, .not_implemented)

/-- NIF stub `quic_close` (src/native/keyring_nif/src/lib.rs:170-172):
unconditionally returns the atom `ok`. -/
def quic_close {α : Type} (_conn : α) : Atom := .ok

/-- NIF stub `quic_listen`. -/
def quic_listen {α : Type} (_port : Nat) (_opts : α) : Atom × Atom :=
  (.error, .not_implemented)

/-- NIF stub `quic_accept`. -/
def quic_accept {α : Type} (_listener : α) : Atom × Atom :=
  (.error, .not_implemented)

/-! ### Supporting lemmas -/

theorem L_pos : 0 < L := by norm_num [L]

theorem L_lt_pow : L < 256 ^ 32 := by norm_num [L]

theorem hashToScalar_lt (m : Bytes) : hashToScalar m < L := Nat.mod_lt _ L_pos

theorem length_pointEncode (p : Nat) : (pointEncode p).length = 32 :=
  length_natToLEBytes 32 (p % L)

theorem pointDecode_pointEncode (p : Nat) :
    pointDecode (pointEncode p) = some (p % L) := by
  have h1 : p % L < L := Nat.mod_lt _ L_pos
  have h2 : p % L < 256 ^ 32 := lt_trans h1 L_lt_pow
  unfold pointDecode pointEncode
  rw [leBytesToNat_natToLEBytes 32 _ h2, if_pos h1]

theorem take32_append (a b : Bytes) (ha : a.length = 32) : (a ++ b).take 32 = a := by
  rw [← ha, List.take_left]

theorem drop32_append (a b : Bytes) (ha : a.length = 32) : (a ++ b).drop 32 = b := by
  rw [← ha, List.drop_left]

theorem length_cvToBytes (c : CV) : (cvToBytes c).length = 32 := by
  simp [cvToBytes, length_natToLEBytes]

theorem length_blake3OfBytes (d : Bytes) : (blake3OfBytes d).length = 32 := by
  unfold blake3OfBytes NodeOutput.rootBytes
  exact length_cvToBytes _

/-- Core verification equation: recovering `R` from `S = r + ks mod L`
by subtracting `ks mod L` again, for a reduced `r`. -/
theorem verify_equation (r ks : Nat) (hr : r < L) :
    ((r + ks) % L + (L - ks % L)) % L = r := by
  have hc : ks % L < L := Nat.mod_lt _ L_pos
  calc ((r + ks) % L + (L - ks % L)) % L
      = ((r % L + ks % L) % L + (L - ks % L)) % L := by rw [Nat.add_mod r ks L]
    _ = ((r + ks % L) % L + (L - ks % L)) % L := by rw [Nat.mod_eq_of_lt hr]
    _ = ((r + ks % L) + (L - ks % L)) % L := by rw [Nat.mod_add_mod]
    _ = (r + L) % L := by congr 1; omega
    _ = r % L := by rw [Nat.add_mod_right]
    _ = r := Nat.mod_eq_of_lt hr

theorem mod_L_idem (x : Nat) : x % L % L = x % L :=
  Nat.mod_eq_of_lt (Nat.mod_lt _ L_pos)

/-- Core of the round trip: a signature assembled from the signing
equation `S = r + k*s mod L` passes `ed25519_verify` against the
encoding of the public point of `s`. -/
theorem verify_sig_core (data : Bytes) (s r : Nat) (hs : s < L) (hr : r < L) :
    ed25519_verify data
      (pointEncode r ++
        natToLEBytes 32 ((r + hashToScalar (pointEncode r ++ pointEncode s ++ data) * s) % L))
      (pointEncode s) = true := by
  set k := hashToScalar (pointEncode r ++ pointEncode s ++ data) with hk_def
  set S := (r + k * s) % L with hS_def
  have hS : S < L := Nat.mod_lt _ L_pos
  unfold ed25519_verify
  have hlen : ¬((pointEncode s).length ≠ 32 ∨
      (pointEncode r ++ natToLEBytes 32 S).length ≠ 64) := by
    push_neg
    refine ⟨length_pointEncode s, ?_⟩
    simp [pointEncode, length_natToLEBytes]
  rw [if_neg hlen, pointDecode_pointEncode s, Nat.mod_eq_of_lt hs]
  simp only []
  rw [take32_append _ _ (length_pointEncode r), drop32_append _ _ (length_pointEncode r)]
  rw [leBytesToNat_natToLEBytes 32 S (lt_trans hS L_lt_pow)]
  rw [if_neg (not_le.mpr hS)]
  rw [← hk_def]
  unfold pointSub scalarMulBase scalarMulPoint
  rw [Nat.mod_eq_of_lt hS, mod_L_idem, hS_def, verify_equation r (k * s) hr]
  simp

/-! ### Claim theorems -/

/-- C1: for every message and every keypair produced by
`generate_keypair`, signing the message with the returned secret and
verifying the produced signature against the returned public key and
the same message yields `true`. -/
theorem ed25519_sign_verify_roundtrip (entropy data : Bytes) (h : entropy.length = 32) :
    (ed25519_sign data (generate_keypair entropy).secret).map
      (fun sig => ed25519_verify data sig (generate_keypair entropy).public) =
    Except.ok true := by
  have hs : scalarFromSeed entropy < L := hashToScalar_lt entropy
  have hr : hashToScalar (prefixOfSeed entropy ++ data) < L := hashToScalar_lt _
  have hpublic : (generate_keypair entropy).public = pointEncode (scalarFromSeed entropy) := by
    show pointEncode (scalarMulBase (scalarFromSeed entropy)) = _
    unfold scalarMulBase
    rw [Nat.mod_eq_of_lt hs]
  have hsecret : (generate_keypair entropy).secret = entropy := rfl
  rw [hsecret, hpublic]
  unfold ed25519_sign
  rw [if_neg (by rw [h]; exact fun hne => hne rfl)]
  simp only [Except.map, Except.ok.injEq]
  simp only [scalarMulBase]
  rw [Nat.mod_eq_of_lt hs, Nat.mod_eq_of_lt hr]
  exact verify_sig_core data (scalarFromSeed entropy)
    (hashToScalar (prefixOfSeed entropy ++ data)) hs hr

/-- Witness for C1 at a concrete entropy draw and message. -/
theorem ed25519_sign_verify_roundtrip_witness :
    (List.replicate 32 (7 : Nat)).length = 32 ∧
    (ed25519_sign [1, 2, 3] (generate_keypair (List.replicate 32 7)).secret).map
      (fun sig => ed25519_verify [1, 2, 3] sig
        (generate_keypair (List.replicate 32 7)).public) = Except.ok true :=
  ⟨by decide, ed25519_sign_verify_roundtrip (List.replicate 32 7) [1, 2, 3] (by decide)⟩

/-- C3: `ed25519_verify` is a total boolean function, and it returns
`false` whenever the signature is not exactly 64 bytes, or the public
key is not exactly 32 bytes, or the 32-byte public key does not decode
to a valid point. -/
theorem ed25519_verify_malformed_false (data sig pub : Bytes)
    (h : sig.length ≠ 64 ∨ pub.length ≠ 32 ∨ pointDecode pub = none) :
    ed25519_verify data sig pub = false := by
  unfold ed25519_verify
  rcases h with h | h | h
  · rw [if_pos (Or.inr h)]
  · rw [if_pos (Or.inl h)]
  · by_cases hl : pub.length ≠ 32 ∨ sig.length ≠ 64
    · rw [if_pos hl]
    · rw [if_neg hl, h]

/-- Witness for C3 at a 63-byte signature. -/
theorem ed25519_verify_malformed_false_witness :
    ((List.replicate 63 (0 : Nat)).length ≠ 64 ∨
      (List.replicate 32 (0 : Nat)).length ≠ 32 ∨
      pointDecode (List.replicate 32 (0 : Nat)) = none) ∧
    ed25519_verify [] (List.replicate 63 0) (List.replicate 32 0) = false :=
  ⟨Or.inl (by decide),
   ed25519_verify_malformed_false [] (List.replicate 63 0) (List.replicate 32 0)
     (Or.inl (by decide))⟩

/-- C4: `ed25519_sign` rejects every secret key whose length is not
exactly 32 bytes with the error atom (the spec's `InvalidKeyLength`
condition, the single error of the function), and no other error value
can be returned. -/
theorem ed25519_sign_invalid_key_length (data secret_key : Bytes) :
    (secret_key.length ≠ 32 → ed25519_sign data secret_key = .error Atom.error) ∧
    (∀ e, ed25519_sign data secret_key = .error e → e = Atom.error) := by
  constructor
  · intro h
    simp [ed25519_sign, h]
  · intro e he
    unfold ed25519_sign at he
    by_cases h : secret_key.length = 32
    · simp [h] at he
    · simp [h] at he
      exact he.symm

/-- Witness for C4 at a 31-byte secret key. -/
theorem ed25519_sign_invalid_key_length_witness :
    (List.replicate 31 (0 : Nat)).length ≠ 32 ∧
    ed25519_sign [] (List.replicate 31 0) = .error Atom.error :=
  ⟨by decide, (ed25519_sign_invalid_key_length [] (List.replicate 31 0)).1 (by decide)⟩

/-- C8: on every secret key of exactly 32 bytes, whatever their values,
`ed25519_sign` succeeds (the error branch is unreachable, no validity
check beyond the length is performed) and the returned signature is
exactly 64 bytes. -/
theorem ed25519_sign_ok_64 (data secret_key : Bytes) (h : secret_key.length = 32) :
    (ed25519_sign data secret_key).map List.length = .ok 64 := by
  simp [ed25519_sign, h, pointEncode, length_natToLEBytes, Except.map,
    List.length_append]

/-- Witness for C8 at an arbitrary all-255 32-byte key. -/
theorem ed25519_sign_ok_64_witness :
    (List.replicate 32 (255 : Nat)).length = 32 ∧
    (ed25519_sign [1] (List.replicate 32 255)).map List.length = .ok 64 :=
  ⟨by decide, ed25519_sign_ok_64 [1] (List.replicate 32 255) (by decide)⟩

/-- C9: signing is deterministic: two calls of `ed25519_sign` on equal
message bytes and equal secret-key bytes return equal results (the
model takes no randomness; the NIF signature has no entropy input). -/
theorem ed25519_sign_deterministic (m1 m2 k1 k2 : Bytes) (hm : m1 = m2) (hk : k1 = k2) :
    ed25519_sign m1 k1 = ed25519_sign m2 k2 := by
  rw [hm, hk]

/-- Witness for C9 at concrete equal inputs. -/
theorem ed25519_sign_deterministic_witness :
    ed25519_sign [5] (List.replicate 32 1) = ed25519_sign [5] (List.replicate 32 1) :=
  ed25519_sign_deterministic [5] [5] (List.replicate 32 1) (List.replicate 32 1) rfl rfl

/-- C5: the `node_id` returned by `generate_keypair` equals the BLAKE3
digest (`blake3_hash`) of the `public` key bytes returned by the same
call, for every entropy draw. -/
theorem generate_keypair_node_id_eq_hash_public (entropy : Bytes) :
    (generate_keypair entropy).node_id = blake3_hash (generate_keypair entropy).public :=
  rfl

/-- C6: `blake3_hash` returns exactly 32 bytes on every input, including
the empty one, with no error path (it is a total function into byte
lists), and it is deterministic: equal input bytes give equal outputs. -/
theorem blake3_hash_length_and_deterministic (d d2 : Bytes) :
    (blake3_hash d).length = 32 ∧ (d = d2 → blake3_hash d = blake3_hash d2) :=
  ⟨length_blake3OfBytes d, fun h => h ▸ rfl⟩

/-- Witness for C6 at concrete inputs. -/
theorem blake3_hash_length_and_deterministic_witness :
    (blake3_hash []).length = 32 ∧ blake3_hash [] = blake3_hash [] :=
  ⟨(blake3_hash_length_and_deterministic [] []).1,
   (blake3_hash_length_and_deterministic [] []).2 rfl⟩

/-- C7 (code evaluated at the failing input): `quic_close` returns the
atom `ok` — it reports success instead of the `not_implemented`
condition that the spec requires of every unimplemented transport
stub. -/
theorem quic_close_reports_success :
    quic_close (0 : Nat) = Atom.ok ∧ Atom.ok ≠ Atom.not_implemented :=
  ⟨rfl, by decide⟩

/-- C10: every store stub and every QUIC stub other than `quic_close`
returns exactly the pair `(error, not_implemented)` whatever its
arguments are, and `quic_close` returns the atom `ok` for every
connection handle. -/
theorem stubs_constant_not_implemented (α β : Type) (path host : String)
    (store conn listener : α) (doc opts : β) (data hsh id kid : Bytes)
    (port tmo : Nat) :
    store_open path = (Atom.error, Atom.not_implemented) ∧
    store_put_blob store data = (Atom.error, Atom.not_implemented) ∧
    store_get_blob store hsh = (Atom.error, Atom.not_implemented) ∧
    store_has_blob store hsh = (Atom.error, Atom.not_implemented) ∧
    store_put_document store doc = (Atom.error, Atom.not_implemented) ∧
    store_get_document store id = (Atom.error, Atom.not_implemented) ∧
    store_list_documents store kid = (Atom.error, Atom.not_implemented) ∧
    store_delete_document store id = (Atom.error, Atom.not_implemented) ∧
    quic_connect host port = (Atom.error, Atom.not_implemented) ∧
    quic_send conn data = (Atom.error, Atom.not_implemented) ∧
    quic_recv conn tmo = (Atom.error, Atom.not_implemented) ∧
    quic_listen port opts = (Atom.error, Atom.not_implemented) ∧
    quic_accept listener = (Atom.error, Atom.not_implemented) ∧
    quic_close conn = Atom.ok :=
  ⟨rfl, rfl, rfl, rfl, rfl, rfl, rfl, rfl, rfl, rfl, rfl, rfl, rfl, rfl⟩

end Keyring
